import Mathlib

/-!
Verification of the scanned-PDF conversion core (backend/pdf_converter.py and
backend/docx_html.py) against its natural-language specification.

The embedding models the external collaborators as explicit inputs:
an `OcrEnv` carries the rasterized page images, the per-page results of the
recognition engine (an `Option`, where `none` models an exception raised by
the engine on that image), the per-page embedded text reported by the PDF
text-extraction library, and the raw bytes of the source file.  The model
covers a run in which the recognition engine is installed and rasterization
succeeded; those job-fatal dependency failures abort before the per-page
logic that the claims are about.  Character classes used by the Python
regular expressions are modelled at the ASCII level (the only level the
converter itself produces).
-/

/-- Decimal digit character for a value below 10, as produced by Python
string formatting of a nonnegative integer. -/
def digitChar (d : Nat) : Char := Char.ofNat (48 + d)

/-- Decimal digit run of a natural number, most significant first, via
repeated division by 10.  The fuel argument strictly exceeds the number of
recursion steps whenever it exceeds the argument, so `natDigits` below never
exhausts it. -/
def natDigitsAux : Nat → Nat → List Char
  | 0, _ => []
  | fuel + 1, n =>
    if n < 10 then [digitChar n]
    else natDigitsAux fuel (n / 10) ++ [digitChar (n % 10)]

/-- Decimal digit characters of a natural number (the model of Python
`str(i)` for the 1-based page counter). -/
def natDigits (n : Nat) : List Char := natDigitsAux (n + 1) n

/-- Decimal string of a natural number. -/
def natString (n : Nat) : String := String.mk (natDigits n)

/-- Numeric value of a run of decimal digit characters (the model of Python
`int` applied to a digits-only string). -/
def digitsVal (l : List Char) : Nat :=
  l.foldl (fun a c => 10 * a + (c.toNat - 48)) 0

/-- Case-normalised code of a character: ASCII upper-case letters are mapped
to their lower-case code, everything else to its own code.  This models the
effect of `re.IGNORECASE` (and `str.lower`) at the ASCII level. -/
def lowerNat (c : Char) : Nat :=
  if 65 ≤ c.toNat ∧ c.toNat ≤ 90 then c.toNat + 32 else c.toNat

/-- Case-insensitive character comparison used by the regex model. -/
def lowerEq (a b : Char) : Bool := lowerNat a == lowerNat b

/-- Case-insensitive literal matcher: consumes the pattern from the front of
the input and returns the rest, or fails. -/
def matchLit : List Char → List Char → Option (List Char)
  | [], s => some s
  | _ :: _, [] => none
  | p :: ps, x :: xs => if lowerEq p x then matchLit ps xs else none

/-- Maximal run of decimal digits at the front of the input together with
the rest (the model of a greedy regex digit group). -/
def takeDigits : List Char → List Char × List Char
  | [] => ([], [])
  | c :: cs =>
    if c.isDigit then
      let (d, r) := takeDigits cs
      (c :: d, r)
    else ([], c :: cs)

/-- Python `str.strip` on a character list: whitespace removed from both
ends (ASCII whitespace model). -/
def trimChars (l : List Char) : List Char :=
  ((l.reverse.dropWhile Char.isWhitespace).reverse).dropWhile Char.isWhitespace

/-- Python `str.strip` on a string (ASCII whitespace model). -/
def pyStrip (s : String) : String := String.mk (trimChars s.data)

/-- ASCII lower-casing of one character, the model of Python `str.lower`
at the level the tag names use. -/
def asciiLower (c : Char) : Char :=
  if 65 ≤ c.toNat ∧ c.toNat ≤ 90 then Char.ofNat (c.toNat + 32) else c

/-- ASCII lower-casing of a string, the model of Python `str.lower`. -/
def strLower (s : String) : String := String.mk (s.data.map asciiLower)

/-- Pattern occurs at the front of the input (case-sensitive). -/
def beginsW : List Char → List Char → Bool
  | [], _ => true
  | _ :: _, [] => false
  | p :: ps, x :: xs => p == x && beginsW ps xs

/-- Pattern occurs contiguously somewhere in the input (case-sensitive). -/
def hasSeq (pat : List Char) : List Char → Bool
  | [] => beginsW pat []
  | x :: xs => beginsW pat (x :: xs) || hasSeq pat xs

/-- Pairs each element with a counter starting at the given value, the model
of Python `enumerate(xs, k)`. -/
def enumFrom (k : Nat) : List α → List (Nat × α)
  | [] => []
  | x :: xs => (k, x) :: enumFrom (k + 1) xs

/-- Concatenation of a list of strings, the model of `"".join(parts)`. -/
def strConcat : List String → String
  | [] => ""
  | s :: rest => s ++ strConcat rest

/-- A rasterized page image.  The pixel payload is abstracted to an
identifier; the colour mode and the cumulative contrast and sharpness
enhancement factors are the attributes the converter manipulates. -/
structure Image where
  mode : String
  contrast : ℚ
  sharpness : ℚ
  content : Nat
deriving DecidableEq, Repr

/-- A single-page PDF produced by the recognition engine in layout mode:
the visible image plus an invisible text layer. -/
structure PdfPage where
  visual : Image
  textLayer : String
deriving DecidableEq, Repr

/-- The environment of one conversion request: the source file's bytes and
name, the embedded text the PDF text-extraction library reports per page
(`none` for the whole field models an open/parse failure; `none` for a page
models `extract_text` returning `None`), the rasterized page images, and the
recognition engine's behaviour on any image (`none` models a raised
exception). -/
structure OcrEnv where
  sourceBytes : List Nat
  srcName : String
  plumberPages : Option (List (Option String))
  pages : List Image
  recognizeText : Image → Option String
  recognizePdf : Image → Option PdfPage

/-- PDFConverter.is_scanned_pdf: samples up to the first 3 pages, sums the
stripped length of each sampled page's embedded text, treats an empty
document as scanned, otherwise compares the average characters per sampled
page against 50, and treats an open/parse failure as scanned. -/
def is_scanned_pdf (env : OcrEnv) : Bool :=
  match env.plumberPages with
  | none => true
  | some pages =>
    let pagesToCheck := min 3 pages.length
    let totalTextLength : Nat :=
      ((pages.take pagesToCheck).map fun t =>
        match t with
        | some s => if s = "" then 0 else (trimChars s.data).length
        | none => 0).sum
    if pagesToCheck = 0 then true
    else decide ((totalTextLength : ℚ) / (pagesToCheck : ℚ) < 50)

/-- PDFConverter._preprocess_image_for_ocr: optional grayscale conversion,
then a fixed 1.5x contrast enhancement and a fixed 1.5x sharpness
enhancement. -/
def _preprocess_image_for_ocr (image : Image) (preserve_color : Bool) : Image :=
  let image :=
    if preserve_color = false ∧ image.mode ≠ "L" then { image with mode := "L" }
    else image
  let image := { image with contrast := image.contrast * (3 / 2) }
  { image with sharpness := image.sharpness * (3 / 2) }

/-- Image handed to the recognition engine by extract_text_ocr: the
preprocessed image when preprocessing is enabled (the call site passes no
preserve_color argument, so the parameter takes its default, False),
otherwise the original rasterized image. -/
def ocrInputImage (img : Image) (preprocess : Bool) : Image :=
  if preprocess then _preprocess_image_for_ocr img false else img

/-- Average embedded characters per sampled page, stated from the spec text:
up to the first 3 pages are sampled and the stripped lengths of their
embedded text are summed, then divided by the number of sampled pages. -/
def specSampledAvg (pages : List (Option String)) : ℚ :=
  let total : Nat :=
    ((pages.take 3).map fun t =>
      match t with
      | some s => (trimChars s.data).length
      | none => 0).sum
  (total : ℚ) / ((min 3 pages.length : Nat) : ℚ)

/-- Marker string substituted for a page whose recognition failed in text
mode. -/
def ocrFailMarker : String := "[OCR failed for this page]"

/-- Per-page result text in extract_text_ocr: the recognized string, or the
failure marker when the engine raised on the (possibly preprocessed)
image.  The code has no retry in this mode. -/
def resolveText (env : OcrEnv) (preprocess : Bool) (img : Image) : String :=
  match env.recognizeText (ocrInputImage img preprocess) with
  | some pageText => pageText
  | none => ocrFailMarker

/-- One element of the text list built by extract_text_ocr and
extract_text_digital: the literal page delimiter line, a blank line, the
page's text, and a trailing blank line. -/
def pageEntry (n : Nat) (body : String) : String :=
  "--- Page " ++ natString n ++ " ---" ++ "\n\n" ++ body ++ "\n\n"

/-- The text list built by the loop of extract_text_ocr, one entry per
rasterized page, numbered from 1. -/
def pageEntries (env : OcrEnv) (preprocess : Bool) : List String :=
  (enumFrom 1 env.pages).map fun p => pageEntry p.1 (resolveText env preprocess p.2)

/-- PDFConverter.extract_text_ocr: concatenation of the per-page entries. -/
def extract_text_ocr (env : OcrEnv) (preprocess : Bool) : String :=
  strConcat (pageEntries env preprocess)

/-- PDFConverter.extract_text_digital: per-page embedded text with the same
delimiters, substituting a notice for pages with no text.  Only reached when
the classifier reported a digital document, so the open failure case of the
text-extraction library does not occur on this path; the model totalises it
with an empty page list. -/
def extract_text_digital (env : OcrEnv) : String :=
  strConcat ((enumFrom 1 (env.plumberPages.getD [])).map fun p =>
    pageEntry p.1 (match p.2 with
      | some pageText => if pageText = "" then "[No text found on this page]" else pageText
      | none => "[No text found on this page]"))

/-- Layout-mode processing of one page in create_searchable_pdf: recognize
the (possibly preprocessed) image; on failure retry once with the original
rasterized image; if the retry also fails, raise a RuntimeError naming the
page. -/
def processPage (env : OcrEnv) (preprocess preserve_color : Bool)
    (p : Nat × Image) : Except String PdfPage :=
  let processed :=
    if preprocess then _preprocess_image_for_ocr p.2 preserve_color else p.2
  match env.recognizePdf processed with
  | some page => Except.ok page
  | none =>
    match env.recognizePdf p.2 with
    | some page => Except.ok page
    | none => Except.error ("Could not process page " ++ natString p.1)

/-- Loop of create_searchable_pdf: pages are processed in order and appended
to the writer; the first page that fails twice aborts the loop with its
error. -/
def buildPages (env : OcrEnv) (preprocess preserve_color : Bool) :
    List (Nat × Image) → Except String (List PdfPage)
  | [] => Except.ok []
  | p :: rest =>
    match processPage env preprocess preserve_color p with
    | Except.ok page =>
      (buildPages env preprocess preserve_color rest).map fun done => page :: done
    | Except.error e => Except.error e

/-- PDFConverter.create_searchable_pdf: every page is processed in order and
appended to the writer; a page whose recognition fails twice aborts the
whole conversion with an error, and the output file is only written after
every page succeeded. -/
def create_searchable_pdf (env : OcrEnv) (preprocess preserve_color : Bool) :
    Except String (List PdfPage) :=
  buildPages env preprocess preserve_color (enumFrom 1 env.pages)

/-- Literal part of the page-delimiter regex before the digit group. -/
def delimHead : List Char := "--- Page ".data

/-- Literal part of the page-delimiter regex after the digit group. -/
def delimTail : List Char := (" ---" ++ "\n\n").data

/-- Match of the page-delimiter regex at the front of the input: the literal
head (case-insensitively, modelling re.IGNORECASE), a nonempty greedy digit
run, and the literal tail; returns the captured digit run and the rest. -/
def matchDelim (s : List Char) : Option (List Char × List Char) :=
  match matchLit delimHead s with
  | none => none
  | some r1 =>
    let (ds, r2) := takeDigits r1
    if ds.isEmpty then none
    else
      match matchLit delimTail r2 with
      | none => none
      | some r3 => some (ds, r3)

/-- Splitting loop of re.split on the page-delimiter pattern: scans left to
right for non-overlapping leftmost matches; returns the text before the
first match and, per match, the captured page-number digits and the text
running to the next match or the end.  The fuel argument strictly exceeds
the input length at every call below, so it is never exhausted. -/
def splitAux : Nat → List Char → List Char × List (List Char × List Char)
  | 0, _ => ([], [])
  | _ + 1, [] => ([], [])
  | fuel + 1, c :: cs =>
    match matchDelim (c :: cs) with
    | some (num, rest) =>
      let (pre, pairs) := splitAux fuel rest
      ([], (num, pre) :: pairs)
    | none =>
      let (pre, pairs) := splitAux fuel cs
      (c :: pre, pairs)

/-- The (pageNumber, content) pairs save_as_docx recovers from the
concatenated text: re.split interleaves the captured page numbers with the
content between matches, and the loop over the odd indices pairs each
captured number with the following content part, discarding the text before
the first match. -/
def splitPages (text : String) : List (String × String) :=
  ((splitAux (text.data.length + 1) text.data).2).map fun p =>
    (String.mk p.1, String.mk p.2)

/-- A run of a word-processor paragraph as python-docx models it: text plus
tri-state character formatting, an optional font size in points, an optional
RGB colour, and whether the run carries an explicit line break. -/
structure Run where
  text : String
  bold : Option Bool
  italic : Option Bool
  underline : Option Bool
  size : Option ℚ
  color : Option (Nat × Nat × Nat)
  brk : Bool
deriving DecidableEq, Repr

/-- A run containing only text, with every formatting attribute left at its
python-docx default. -/
def mkRun (text : String) : Run :=
  { text := text, bold := none, italic := none, underline := none,
    size := none, color := none, brk := false }

/-- A paragraph of a word-processor document: its runs, its optional named
style, and its optional paragraph-level alignment (never set by this
program, but present in the model because the library allows setting it). -/
structure Para where
  runs : List Run
  style : Option String
  alignment : Option Nat
deriving DecidableEq, Repr

/-- A paragraph with no runs, no style and no alignment, as produced by
doc.add_paragraph(). -/
def emptyPara : Para := { runs := [], style := none, alignment := none }

/-- PDFConverter.save_as_docx: a bold 14pt title naming the source file, a
blank paragraph, then, for every (pageNumber, content) pair recovered by the
page-delimiter split, a bold 12pt dark-blue heading reading Page N, a body
paragraph with the stripped content, and a blank spacer paragraph.  No
paragraph alignment is set. -/
def save_as_docx (srcName : String) (text : String) : List Para :=
  let title : Para :=
    { runs := [{ mkRun ("Extracted from: " ++ srcName) with
                   bold := some true, size := some 14 }],
      style := none, alignment := none }
  title :: emptyPara ::
    (splitPages text).flatMap fun pr =>
      [{ runs := [{ mkRun ("Page " ++ pr.1) with
                      bold := some true, size := some 12,
                      color := some (0, 0, 139) }],
         style := none, alignment := none },
       { runs := [mkRun (String.mk (trimChars pr.2.data))],
         style := none, alignment := none },
       emptyPara]

/-- Output format of a conversion request, validated by the PDFConverter
constructor. -/
inductive OutFormat where
  | pdf
  | txt
  | docx
deriving DecidableEq, Repr

/-- The artifact a conversion produces: a searchable PDF assembled from
recognized pages, a byte-for-byte copy of the source, a text file, or a
word-processor document. -/
inductive ConvOutput where
  | searchable (pages : List PdfPage)
  | copied (bytes : List Nat)
  | txtFile (content : String)
  | docxFile (paras : List Para)
deriving DecidableEq, Repr

/-- PDFConverter.convert: classify unless force_ocr is set; for PDF output
either run layout-mode recognition or copy the source byte for byte; for
TXT/DOCX output extract text by OCR or digitally (the text-mode call site
passes no preserve_color argument) and emit it. -/
def convert (env : OcrEnv) (fmt : OutFormat)
    (force_ocr preprocess preserve_color : Bool) : Except String ConvOutput :=
  let use_ocr := force_ocr || is_scanned_pdf env
  match fmt with
  | .pdf =>
    if use_ocr then
      (create_searchable_pdf env preprocess preserve_color).map ConvOutput.searchable
    else Except.ok (ConvOutput.copied env.sourceBytes)
  | .txt =>
    let text := if use_ocr then extract_text_ocr env preprocess
                else extract_text_digital env
    Except.ok (ConvOutput.txtFile text)
  | .docx =>
    let text := if use_ocr then extract_text_ocr env preprocess
                else extract_text_digital env
    Except.ok (ConvOutput.docxFile (save_as_docx env.srcName text))

/-- A node of the parsed HTML fragment as BeautifulSoup presents it: either
a text node or an element with a tag name, attributes and children.  Parsing
the HTML string into this tree is the library boundary of the model;
html.parser lower-cases tag names, but the functions below re-lower them
exactly as the code does. -/
inductive HNode where
  | text (s : String)
  | elem (name : String) (attrs : List (String × String)) (children : List HNode)

/-- BeautifulSoup tag.string: the text of the unique child, recursively, or
nothing when the node has zero or several children. -/
def tagString : HNode → Option String
  | .text s => some s
  | .elem _ _ [c] => tagString c
  | .elem _ _ _ => none

/-- Attribute lookup with empty-string default, the model of
tag.get("style", "") or "". -/
def styleAttr (attrs : List (String × String)) : String :=
  match attrs.lookup "style" with
  | some v => v
  | none => ""

/-- Character class of the font-size value group: decimal digits and the
dot. -/
def numChar (c : Char) : Bool := c.isDigit || c == '.'

/-- Python float() on a digits-and-dots string captured by the font-size
regex: accepts at most one dot and at least one digit on either side,
rejects everything else, and yields the exact decimal value. -/
def parseFloatQ (cs : List Char) : Option ℚ :=
  match cs.splitOn '.' with
  | [ip] => if ip.isEmpty then none else some (digitsVal ip : ℚ)
  | [ip, fp] =>
    if ip.isEmpty ∧ fp.isEmpty then none
    else some ((digitsVal ip : ℚ) + (digitsVal fp : ℚ) / ((10 : ℚ) ^ fp.length))
  | _ => none

/-- Match of the font-size regex at the front of the input: the literal
font-size: (case-insensitively), optional whitespace, a nonempty greedy run
of digits and dots, optional whitespace, and an optional pt/px/em unit.
Returns the captured value characters and the captured unit. -/
def fontSizeMatchAt (s : List Char) : Option (List Char × Option String) :=
  match matchLit "font-size:".data s with
  | none => none
  | some r1 =>
    let r2 := r1.dropWhile Char.isWhitespace
    let v := r2.takeWhile numChar
    if v.isEmpty then none
    else
      let r3 := (r2.dropWhile numChar).dropWhile Char.isWhitespace
      let unit :=
        if (matchLit "pt".data r3).isSome then some "pt"
        else if (matchLit "px".data r3).isSome then some "px"
        else if (matchLit "em".data r3).isSome then some "em"
        else none
      some (v, unit)

/-- Leftmost-match search loop for the font-size regex: at the first
position where the whole pattern matches, the captured value is parsed as a
float (an unparsable value aborts with no result, as the code returns None
on ValueError) and converted to points per its unit, pt staying as is, px
scaled by 0.75 and em by 12. -/
def fontSizeSearch : List Char → Option ℚ
  | [] => none
  | c :: cs =>
    match fontSizeMatchAt (c :: cs) with
    | some (v, unit) =>
      match parseFloatQ v with
      | none => none
      | some value =>
        match unit.getD "pt" with
        | "pt" => some value
        | "px" => some (value * (3 / 4))
        | "em" => some (value * 12)
        | _ => some value
    | none => fontSizeSearch cs

/-- docx_html._parse_font_size: font size in points parsed from a CSS style
string, or nothing. -/
def _parse_font_size (style : String) : Option ℚ :=
  if style = "" then none else fontSizeSearch style.data

/-- Match of the rgb colour regex at the front of the input: the literal
color: then rgb (case-insensitively) with optional whitespace, an opening
parenthesis, and three comma-separated greedy digit runs with optional
whitespace, closed by a parenthesis. -/
def rgbMatchAt (s : List Char) : Option (Nat × Nat × Nat) :=
  match matchLit "color:".data s with
  | none => none
  | some r1 =>
    match matchLit "rgb".data (r1.dropWhile Char.isWhitespace) with
    | none => none
    | some r2 =>
      match matchLit "(".data (r2.dropWhile Char.isWhitespace) with
      | none => none
      | some r3 =>
        let (d1, r4) := takeDigits (r3.dropWhile Char.isWhitespace)
        if d1.isEmpty then none
        else
          match matchLit ",".data (r4.dropWhile Char.isWhitespace) with
          | none => none
          | some r5 =>
            let (d2, r6) := takeDigits (r5.dropWhile Char.isWhitespace)
            if d2.isEmpty then none
            else
              match matchLit ",".data (r6.dropWhile Char.isWhitespace) with
              | none => none
              | some r7 =>
                let (d3, r8) := takeDigits (r7.dropWhile Char.isWhitespace)
                if d3.isEmpty then none
                else
                  match matchLit ")".data (r8.dropWhile Char.isWhitespace) with
                  | none => none
                  | some _ => some (digitsVal d1, digitsVal d2, digitsVal d3)

/-- Leftmost-match search loop for the rgb colour regex. -/
def rgbSearch : List Char → Option (Nat × Nat × Nat)
  | [] => none
  | c :: cs =>
    match rgbMatchAt (c :: cs) with
    | some rgb => some rgb
    | none => rgbSearch cs

/-- A hexadecimal digit, upper or lower case, as in the character class of
the hex colour regex. -/
def hexChar (c : Char) : Bool :=
  c.isDigit || (97 ≤ c.toNat && c.toNat ≤ 102) || (65 ≤ c.toNat && c.toNat ≤ 70)

/-- Value of one hexadecimal digit character. -/
def hexVal (c : Char) : Nat :=
  if c.isDigit then c.toNat - 48
  else if 97 ≤ c.toNat then c.toNat - 87
  else c.toNat - 55

/-- Match of the hex colour regex at the front of the input: the literal
color: (this second search has no IGNORECASE flag, so the literal is matched
case-sensitively), a hash sign and exactly six hex digits, split into three
byte values. -/
def hexMatchAt (s : List Char) : Option (Nat × Nat × Nat) :=
  match s with
  | 'c' :: 'o' :: 'l' :: 'o' :: 'r' :: ':' :: '#' ::
      h1 :: h2 :: h3 :: h4 :: h5 :: h6 :: _ =>
    if hexChar h1 && hexChar h2 && hexChar h3 && hexChar h4 &&
        hexChar h5 && hexChar h6 then
      some (16 * hexVal h1 + hexVal h2, 16 * hexVal h3 + hexVal h4,
        16 * hexVal h5 + hexVal h6)
    else none
  | _ => none

/-- Leftmost-match search loop for the hex colour regex. -/
def hexSearch : List Char → Option (Nat × Nat × Nat)
  | [] => none
  | c :: cs =>
    match hexMatchAt (c :: cs) with
    | some rgb => some rgb
    | none => hexSearch cs

/-- docx_html._parse_color: an (r, g, b) triple parsed from a CSS style
string, trying the rgb( ) form first and the six-digit hex form second. -/
def _parse_color (style : String) : Option (Nat × Nat × Nat) :=
  if style = "" then none
  else
    match rgbSearch style.data with
    | some rgb => some rgb
    | none => hexSearch style.data

/-- docx_html._add_inline_format: bold for strong/b, italic for em/i,
underline for u, then, when a style string is present, the parsed font size
clamped to the range 6 to 72 points and the parsed colour. -/
def _add_inline_format (r : Run) (tagName : String) (style : String) : Run :=
  let tl := strLower tagName
  let r :=
    if tl = "strong" ∨ tl = "b" then { r with bold := some true }
    else if tl = "em" ∨ tl = "i" then { r with italic := some true }
    else if tl = "u" then { r with underline := some true }
    else r
  if style = "" then r
  else
    let r :=
      match _parse_font_size style with
      | some pt => { r with size := some (min (max pt 6) 72) }
      | none => r
    match _parse_color style with
    | some rgb => { r with color := some rgb }
    | none => r

/-- A run holding an explicit line break, as produced for a br element
inside a block. -/
def brRun : Run := { mkRun "" with brk := true }

mutual

/-- docx_html._process_inline: a text node contributes its stripped text as
a plain run when nonempty; br contributes an in-paragraph break; the inline
containers strong/b/em/i/u/span format their direct text children with the
container's tag and style and recurse into child tags without inheriting;
any other tag contributes its tag.string stripped and formatted when that is
a nonempty string, else its children are processed recursively. -/
def _process_inline : HNode → List Run
  | .text s =>
    let t := pyStrip s
    if t = "" then [] else [mkRun t]
  | .elem name attrs children =>
    let n := strLower name
    if n = "br" then [brRun]
    else
      let style := styleAttr attrs
      if n = "strong" ∨ n = "b" ∨ n = "em" ∨ n = "i" ∨ n = "u" ∨ n = "span" then
        inlineContainer n style children
      else
        match tagString (.elem name attrs children) with
        | some s =>
          if s = "" then inlineChildren children
          else [_add_inline_format (mkRun (pyStrip s)) name style]
        | none => inlineChildren children

/-- Loop body of the inline-container branch of _process_inline: tag
children are recursed into, string children are stripped and, when
nonempty, added as a run formatted from the container. -/
def inlineContainer (n style : String) : List HNode → List Run
  | [] => []
  | .elem cn ca cc :: rest =>
    _process_inline (.elem cn ca cc) ++ inlineContainer n style rest
  | .text s :: rest =>
    (let t := pyStrip s
     if t = "" then [] else [_add_inline_format (mkRun t) n style]) ++
      inlineContainer n style rest

/-- Recursive processing of all children, as in the fallback branches of
_process_inline. -/
def inlineChildren : List HNode → List Run
  | [] => []
  | c :: rest => _process_inline c ++ inlineChildren rest

end

/-- Heading level of an hN tag name, defined for h1 through h6. -/
def headingLevel (n : String) : Option Nat :=
  if n = "h1" then some 1
  else if n = "h2" then some 2
  else if n = "h3" then some 3
  else if n = "h4" then some 4
  else if n = "h5" then some 5
  else if n = "h6" then some 6
  else none

/-- Direct li element test, as used by find_all("li", recursive=False). -/
def isLiElem : HNode → Bool
  | .elem n _ _ => n == "li"
  | .text _ => false

/-- Children of a node, empty for a text node. -/
def nodeChildren : HNode → List HNode
  | .text _ => []
  | .elem _ _ c => c

/-- One top-level node of the block loop of docx_html.html_to_docx: a bare
nonempty text node becomes a plain paragraph; p/div a paragraph; h1 to h6 a
paragraph styled Heading N; br and hr an empty paragraph; ul/ol one
List Bullet or List Number paragraph per direct li child, whose own children
are processed inline (so nested lists are flattened); a top-level li a
List Bullet paragraph; anything else a plain paragraph over its children. -/
def blockParas : HNode → List Para
  | .text s =>
    let t := pyStrip s
    if t = "" then [] else [{ runs := [mkRun t], style := none, alignment := none }]
  | .elem name _attrs children =>
    let n := strLower name
    if n = "p" ∨ n = "div" then
      [{ runs := inlineChildren children, style := none, alignment := none }]
    else
      match headingLevel n with
      | some level =>
        [{ runs := inlineChildren children, style := some ("Heading " ++ natString level),
           alignment := none }]
      | none =>
        if n = "br" then [emptyPara]
        else if n = "hr" then [emptyPara]
        else if n = "ul" ∨ n = "ol" then
          (children.filter isLiElem).map fun li =>
            { runs := inlineChildren (nodeChildren li),
              style := some (if n = "ul" then "List Bullet" else "List Number"),
              alignment := none }
        else if n = "li" then
          [{ runs := inlineChildren children, style := some "List Bullet",
             alignment := none }]
        else
          [{ runs := inlineChildren children, style := none, alignment := none }]

/-- The block loop of html_to_docx over the top-level nodes of the
fragment. -/
def htmlBlocks (blocks : List HNode) : List Para :=
  blocks.flatMap blockParas

/-- docx_html.html_to_docx on the parsed top-level nodes of the fragment:
the block loop, then one empty paragraph inserted when the document would
otherwise contain no paragraph at all. -/
def html_to_docx (blocks : List HNode) : List Para :=
  let ps := htmlBlocks blocks
  if ps.length = 0 then [emptyPara] else ps

/-- Element test for the top-level nodes of a fragment. -/
def isElemNode : HNode → Bool
  | .elem _ _ _ => true
  | .text _ => false

/-- Block mapping stated from the spec text (with the one amendment the code
forces for a top-level li): per element, p/div give one paragraph, h1 to h6
one heading paragraph at the matching level, ul/ol one list-item paragraph
per direct li child, br/hr one empty paragraph, li one bullet list item, and
any other tag one plain paragraph; the emitted block sequence is described
here by the paragraph styles. -/
def specC6Styles : HNode → List (Option String)
  | .text _ => []
  | .elem name _ children =>
    let n := strLower name
    if n = "p" ∨ n = "div" then [none]
    else
      match headingLevel n with
      | some level => [some ("Heading " ++ natString level)]
      | none =>
        if n = "ul" ∨ n = "ol" then
          (children.filter isLiElem).map fun _ =>
            some (if n = "ul" then "List Bullet" else "List Number")
        else if n = "br" ∨ n = "hr" then [none]
        else if n = "li" then [some "List Bullet"]
        else [none]

/-- The per-page text results of one text-mode run, in page order: the
recognized string or the failure marker. -/
def ocrTexts (env : OcrEnv) (preprocess : Bool) : List String :=
  env.pages.map (resolveText env preprocess)

/-- The four characters every page-delimiter match starts with. -/
def dashMark : List Char := "--- ".data

/-- Title block of the word-processor output, stated from the spec text: a
bold 14pt title naming the source document. -/
def specTitlePara (srcName : String) : Para :=
  { runs := [{ mkRun ("Extracted from: " ++ srcName) with
                 bold := some true, size := some 14 }],
    style := none, alignment := none }

/-- Per-page heading block, stated from the spec text: bold, 12pt,
dark-blue, reading Page N. -/
def specHeadingPara (n : Nat) : Para :=
  { runs := [{ mkRun ("Page " ++ natString n) with
                 bold := some true, size := some 12,
                 color := some (0, 0, 139) }],
    style := none, alignment := none }

/-- Per-page body block, stated from the spec text: a plain paragraph with
that page's (stripped) content. -/
def specBodyPara (t : String) : Para :=
  { runs := [mkRun (String.mk (trimChars t.data))], style := none, alignment := none }

/-- Word-processor document layout stated from the spec text: the title
block, a blank paragraph, then per page (in page order, numbered from 1) a
heading block, a body block and a blank spacer paragraph. -/
def specDocxLayout (srcName : String) (texts : List String) : List Para :=
  specTitlePara srcName :: emptyPara ::
    (enumFrom 1 texts).flatMap fun p => [specHeadingPara p.1, specBodyPara p.2, emptyPara]

/-- The emitted page delimiter of page n, as a character list. -/
def delimChars (n : Nat) : List Char := delimHead ++ natDigits n ++ delimTail

/-- Character-level form of the concatenated per-page text: per page, the
delimiter, the page text, and a blank line. -/
def emitChars : Nat → List String → List Char
  | _, [] => []
  | k, t :: ts => delimChars k ++ (t.data ++ ['\n', '\n']) ++ emitChars (k + 1) ts

/-- A colour page image used by the concrete scenarios. -/
def imgRGB : Image := { mode := "RGB", contrast := 1, sharpness := 1, content := 0 }

/-- One-page scanned document whose page the layout-mode engine fails on
both with and without preprocessing. -/
def envC1 : OcrEnv :=
  { sourceBytes := [], srcName := "doc.pdf", plumberPages := some [some ""],
    pages := [imgRGB], recognizeText := fun _ => none, recognizePdf := fun _ => none }

/-- One-page scanned document whose page the text-mode engine fails on in
grayscale but recognizes in colour, so a retry with the unpreprocessed
original image would succeed. -/
def envC2 : OcrEnv :=
  { sourceBytes := [], srcName := "doc.pdf", plumberPages := some [],
    pages := [imgRGB],
    recognizeText := fun im => if im.mode = "L" then none else some "hello",
    recognizePdf := fun _ => none }

/-- Environment whose source document cannot be opened for sampling. -/
def envParseFail : OcrEnv :=
  { sourceBytes := [], srcName := "doc.pdf", plumberPages := none,
    pages := [], recognizeText := fun _ => none, recognizePdf := fun _ => none }

/-- Environment of a zero-page document. -/
def envZeroPages : OcrEnv :=
  { sourceBytes := [], srcName := "doc.pdf", plumberPages := some [],
    pages := [], recognizeText := fun _ => none, recognizePdf := fun _ => none }

/-- Environment of a one-page digital document with exactly 50 embedded
characters on its page. -/
def envDigital : OcrEnv :=
  { sourceBytes := [7, 7, 7], srcName := "digital.pdf",
    plumberPages := some [some "aaaaaaaaaaaaaaaaaaaaaaaaaaaaaaaaaaaaaaaaaaaaaaaaaa"],
    pages := [], recognizeText := fun _ => none, recognizePdf := fun _ => none }

/-- First page image of the two-page scenario. -/
def imgA : Image := { mode := "RGB", contrast := 1, sharpness := 1, content := 1 }

/-- Second page image of the two-page scenario. -/
def imgB : Image := { mode := "RGB", contrast := 1, sharpness := 1, content := 2 }

/-- Two-page scanned document whose pages the text-mode engine recognizes
(by their abstract content, which preprocessing preserves). -/
def envTwoPages : OcrEnv :=
  { sourceBytes := [], srcName := "scan.pdf", plumberPages := none,
    pages := [imgA, imgB],
    recognizeText := fun im => some (if im.content = 1 then "hello" else "world "),
    recognizePdf := fun _ => none }

/-- The HTML fragment of the bold round-trip scenario, as parsed. -/
def c5Frag : HNode :=
  .elem "p" [] [.elem "strong" [] [.text "Hi"], .text " there"]

/-- A top-level li element, as parsed from a bare li fragment. -/
def liFrag : HNode := .elem "li" [] [.text "x"]


/-- C3: is_scanned_pdf samples up to the first 3 pages, summing the trimmed
length of each sampled page's embedded text; it returns true for a zero-page
document and on any open/parse failure (never raising, being total), and
otherwise returns true exactly when the average characters per sampled page
is below 50. -/
theorem c3_theorem :
    (∀ env : OcrEnv, env.plumberPages = none → is_scanned_pdf env = true) ∧
    (∀ env : OcrEnv, env.plumberPages = some [] → is_scanned_pdf env = true) ∧
    (∀ (env : OcrEnv) (pages : List (Option String)),
      env.plumberPages = some pages → pages ≠ [] →
      (is_scanned_pdf env = true ↔ specSampledAvg pages < 50)) := by
  refine ⟨fun env h => by simp [is_scanned_pdf, h],
          fun env h => by simp [is_scanned_pdf, h], ?_⟩
  intro env pages h hne
  have hlen : 0 < pages.length := List.length_pos.mpr hne
  have hmin : ¬ (min 3 pages.length = 0) := by omega
  have htake : pages.take (min 3 pages.length) = pages.take 3 := by
    rcases le_total pages.length 3 with h3 | h3
    · rw [min_eq_right h3, List.take_length, List.take_of_length_le h3]
    · rw [min_eq_left h3]
  have hmap : (pages.take 3).map (fun t => match t with
      | some s => if s = "" then (0 : Nat) else (trimChars s.data).length
      | none => 0) = (pages.take 3).map (fun t => match t with
      | some s => (trimChars s.data).length
      | none => 0) := by
    apply List.map_congr_left
    intro a _
    match a with
    | none => rfl
    | some s =>
      by_cases hs : s = ""
      · subst hs; decide
      · simp [hs]
  simp only [is_scanned_pdf, h, specSampledAvg]
  rw [if_neg hmin, htake, hmap, decide_eq_true_eq]

/-- Classifier outcome on the concrete one-page digital document. -/
lemma envDigital_not_scanned : is_scanned_pdf envDigital = false := by
  show decide ((((50 : Nat) : ℚ)) / (((1 : Nat)) : ℚ) < 50) = false
  norm_num

/-- C4: for every source classified digital, a pdf-format conversion without
force_ocr bypasses recognition and produces an exact byte-for-byte copy of
the source. -/
theorem c4_theorem : ∀ (env : OcrEnv) (pp pc : Bool),
    is_scanned_pdf env = false →
    convert env .pdf false pp pc = Except.ok (ConvOutput.copied env.sourceBytes) := by
  intro env pp pc h
  simp [convert, h]

/-- C4 witness: the digital one-page document is copied byte for byte. -/
theorem c4_witness :
    convert envDigital .pdf false true true =
      Except.ok (ConvOutput.copied [7, 7, 7]) :=
  c4_theorem envDigital true true envDigital_not_scanned

/-- C3 witness: the classifier evaluated on an unopenable document, a
zero-page document and a concrete one-page document. -/
theorem c3_witness :
    is_scanned_pdf envParseFail = true ∧
    is_scanned_pdf envZeroPages = true ∧
    (is_scanned_pdf envDigital = true ↔
      specSampledAvg [some "aaaaaaaaaaaaaaaaaaaaaaaaaaaaaaaaaaaaaaaaaaaaaaaaaa"] < 50) :=
  ⟨c3_theorem.1 envParseFail rfl, c3_theorem.2.1 envZeroPages rfl,
   c3_theorem.2.2 envDigital _ rfl (by decide)⟩


/-- A page whose processing fails makes the whole layout-mode loop fail. -/
lemma buildPages_error (env : OcrEnv) (pp pc : Bool) :
    ∀ (l : List (Nat × Image)) (x : Nat × Image) (e : String), x ∈ l →
      processPage env pp pc x = Except.error e →
      ∃ e2, buildPages env pp pc l = Except.error e2 := by
  intro l
  induction l with
  | nil => intro x e hx; exact absurd hx (List.not_mem_nil x)
  | cons a t ih =>
    intro x e hx hfx
    rcases List.mem_cons.mp hx with rfl | hxt
    · exact ⟨e, by simp [buildPages, hfx]⟩
    · cases hfa : processPage env pp pc a with
      | error e3 => exact ⟨e3, by simp [buildPages, hfa]⟩
      | ok b =>
        obtain ⟨e2, he2⟩ := ih x e hxt hfx
        exact ⟨e2, by simp [buildPages, hfa, he2, Except.map]⟩

/-- C1 counterexample: on a one-page document whose page fails recognition
both with and without preprocessing, create_searchable_pdf raises a
RuntimeError instead of substituting a placeholder page, so the request
aborts with no 1-page output, contrary to the claim. -/
theorem c1_counterexample :
    create_searchable_pdf envC1 true true =
      Except.error "Could not process page 1" ∧
    envC1.pages.length = 1 := ⟨rfl, rfl⟩

/-- C1 amended: in layout mode, when recognition of a page fails on the
preprocessed image and the single retry on the unpreprocessed original also
fails, the conversion raises a RuntimeError naming a page and the whole
request aborts; no placeholder page is substituted. -/
theorem c1_amended_theorem :
    ∀ (env : OcrEnv) (pp pc : Bool) (i : Nat) (img : Image),
      (i, img) ∈ enumFrom 1 env.pages →
      env.recognizePdf (if pp then _preprocess_image_for_ocr img pc else img) = none →
      env.recognizePdf img = none →
      ∃ e, create_searchable_pdf env pp pc = Except.error e := by
  intro env pp pc i img hmem h1 h2
  have hp : processPage env pp pc (i, img) =
      Except.error ("Could not process page " ++ natString i) := by
    simp [processPage, h1, h2]
  exact buildPages_error env pp pc (enumFrom 1 env.pages) (i, img) _ hmem hp

/-- C1 witness: the double failure on the concrete one-page document ends
in an error. -/
theorem c1_witness :
    ∃ e, create_searchable_pdf envC1 true true = Except.error e :=
  c1_amended_theorem envC1 true true 1 imgRGB (by decide) rfl rfl

/-- C2 counterexample: in text mode the marker string is substituted for a
page whose recognition failed on the preprocessed image even though the
engine recognizes the unpreprocessed original of that page, so no retry
with the original image happens, contrary to the claim. -/
theorem c2_counterexample :
    extract_text_ocr envC2 true =
      "--- Page 1 ---\n\n[OCR failed for this page]\n\n" ∧
    envC2.recognizeText imgRGB = some "hello" := ⟨rfl, rfl⟩

lemma enumFrom_getElem {α : Type} : ∀ (l : List α) (j k : Nat),
    (enumFrom j l)[k]? = l[k]?.map fun x => (j + k, x) := by
  intro l
  induction l with
  | nil => intro j k; simp [enumFrom]
  | cons a t ih =>
    intro j k
    cases k with
    | zero => simp [enumFrom]
    | succ k2 =>
      have hjk : j + 1 + k2 = j + (k2 + 1) := by omega
      simp only [enumFrom, List.getElem?_cons_succ, ih (j + 1) k2, hjk]

/-- C2 amended: in text mode a page whose recognition fails on the
(possibly preprocessed) image is immediately given the literal marker
string, with no retry, even when recognition on the unpreprocessed original
image would succeed. -/
theorem c2_amended_theorem :
    ∀ (env : OcrEnv) (pp : Bool) (k : Nat) (img : Image) (t : String),
      env.pages[k]? = some img →
      env.recognizeText (ocrInputImage img pp) = none →
      env.recognizeText img = some t →
      (pageEntries env pp)[k]? = some (pageEntry (k + 1) ocrFailMarker) := by
  intro env pp k img t hk h1 h2
  have hIdx : (enumFrom 1 env.pages)[k]? = some (1 + k, img) := by
    rw [enumFrom_getElem, hk]
    rfl
  have hres : resolveText env pp img = ocrFailMarker := by
    simp [resolveText, h1]
  have h1k : 1 + k = k + 1 := Nat.add_comm 1 k
  unfold pageEntries
  rw [List.getElem?_map, hIdx]
  simp [hres, h1k]

/-- C2 witness: the concrete failing page yields the marker entry. -/
theorem c2_witness :
    (pageEntries envC2 true)[0]? = some (pageEntry 1 ocrFailMarker) :=
  c2_amended_theorem envC2 true 0 imgRGB "hello" rfl rfl rfl

/-- C5 counterexample: transcoding the fragment p strong Hi /strong there
/p yields one bold run Hi and one plain run whose text is there with the
leading space stripped, so no run contains the claimed text with its
leading space. -/
theorem c5_counterexample :
    html_to_docx [c5Frag] =
      [{ runs := [{ mkRun "Hi" with bold := some true }, mkRun "there"],
         style := none, alignment := none }] ∧
    " there" ≠ "there" := by
  constructor
  · rfl
  · decide

/-- C5 amended: the transcoded document holds exactly one paragraph with
one bold run containing Hi followed by one non-bold run containing there;
the leading space of the text node is stripped by the transcoder. -/
theorem c5_theorem :
    (html_to_docx [c5Frag]).map (fun p => p.runs.map fun r => (r.text, r.bold)) =
      [[("Hi", some true), ("there", none)]] := by rfl

/-- C8: the empty fragment, and in general any input whose transcoding
yields zero blocks, produces a document containing exactly one empty
paragraph. -/
theorem c8_theorem :
    html_to_docx [] = [emptyPara] ∧
    ∀ blocks : List HNode, htmlBlocks blocks = [] → html_to_docx blocks = [emptyPara] := by
  refine ⟨rfl, ?_⟩
  intro blocks h
  simp [html_to_docx, h]

/-- C8 witness: the empty fragment yields one empty paragraph. -/
theorem c8_witness : html_to_docx [] = [emptyPara] := c8_theorem.2 [] rfl

/-- Every paragraph the block loop emits carries no alignment. -/
lemma blockParas_alignment : ∀ (b : HNode) (p : Para), p ∈ blockParas b →
    p.alignment = none := by
  intro b p hp
  match b with
  | .text s =>
    simp only [blockParas] at hp
    split at hp
    · exact absurd hp (List.not_mem_nil p)
    · rw [List.mem_singleton.mp hp]
  | .elem name attrs children =>
    simp only [blockParas] at hp
    split at hp
    · rw [List.mem_singleton.mp hp]
    · split at hp
      · rw [List.mem_singleton.mp hp]
      · split at hp
        · rw [List.mem_singleton.mp hp]; rfl
        · split at hp
          · rw [List.mem_singleton.mp hp]; rfl
          · split at hp
            · obtain ⟨li, _, rfl⟩ := List.mem_map.mp hp
              rfl
            · split at hp
              · rw [List.mem_singleton.mp hp]
              · rw [List.mem_singleton.mp hp]

/-- C9: no operation that produces a word-processor document, neither the
DOCX emitter nor the HTML-to-document transcoder, ever sets paragraph-level
alignment on any paragraph of its output. -/
theorem c9_theorem :
    (∀ (srcName text : String) (p : Para), p ∈ save_as_docx srcName text →
      p.alignment = none) ∧
    (∀ (blocks : List HNode) (p : Para), p ∈ html_to_docx blocks →
      p.alignment = none) := by
  constructor
  · intro srcName text p hp
    simp only [save_as_docx, List.mem_cons] at hp
    rcases hp with rfl | hp
    · rfl
    rcases hp with rfl | hp
    · rfl
    obtain ⟨pr, _, hmem⟩ := List.mem_flatMap.mp hp
    simp only [List.mem_cons] at hmem
    rcases hmem with rfl | hmem
    · rfl
    rcases hmem with rfl | hmem
    · rfl
    rcases hmem with rfl | hmem
    · rfl
    · exact absurd hmem (List.not_mem_nil p)
  · intro blocks p hp
    simp only [html_to_docx] at hp
    split at hp
    · rw [List.mem_singleton.mp hp]; rfl
    · obtain ⟨b, _, hmem⟩ := List.mem_flatMap.mp hp
      exact blockParas_alignment b p hmem

/-- C9 witness: concrete paragraphs of both producers carry no
alignment. -/
theorem c9_witness :
    emptyPara.alignment = none ∧
    Para.alignment
      { runs := [mkRun "x"], style := some "List Bullet", alignment := none } =
      none :=
  ⟨c9_theorem.1 "a.pdf" "" emptyPara (by decide),
   c9_theorem.2 [liFrag] _ (by decide)⟩

/-- C10: in text mode the conversion result is independent of the
preserve_color flag, which convert does not forward to the text-mode
recognizer, and with preprocessing enabled every image handed to the
recognition engine is single-channel grayscale. -/
theorem c10_theorem :
    (∀ (env : OcrEnv) (fo pp pc1 pc2 : Bool),
      convert env .txt fo pp pc1 = convert env .txt fo pp pc2) ∧
    (∀ (env : OcrEnv) (fo pp pc1 pc2 : Bool),
      convert env .docx fo pp pc1 = convert env .docx fo pp pc2) ∧
    (∀ img : Image, (ocrInputImage img true).mode = "L") := by
  refine ⟨fun env fo pp pc1 pc2 => rfl, fun env fo pp pc1 pc2 => rfl, ?_⟩
  intro img
  by_cases h : img.mode = "L" <;>
    simp [ocrInputImage, _preprocess_image_for_ocr, h]

/-- Style sequence of the blocks one element emits, against the spec
mapping. -/
lemma blockParas_styles (b : HNode) (hb : isElemNode b = true) :
    (blockParas b).map Para.style = specC6Styles b := by
  match b with
  | .text s => simp [isElemNode] at hb
  | .elem name attrs children =>
    simp only [blockParas, specC6Styles]
    by_cases h1 : strLower name = "p" ∨ strLower name = "div"
    · simp [h1]
    rw [if_neg h1, if_neg h1]
    cases hhl : headingLevel (strLower name) with
    | some L => simp
    | none =>
      by_cases h2 : strLower name = "br"
      · simp [h2, headingLevel, emptyPara]
      by_cases h3 : strLower name = "hr"
      · simp [h2, h3, headingLevel, emptyPara]
      by_cases h4 : strLower name = "ul" ∨ strLower name = "ol"
      · simp [h2, h3, h4, List.map_map, Function.comp_def]
      by_cases h5 : strLower name = "li"
      · simp [h2, h3, h4, h5]
      · simp [h2, h3, h4, h5]

/-- C6 counterexample: a top-level li element, which the claim's mapping
relegates to the other/unknown case and hence to a plain paragraph, is
emitted as a List Bullet styled list item instead. -/
theorem c6_counterexample :
    (htmlBlocks [liFrag]).map Para.style = [some "List Bullet"] ∧
    some "List Bullet" ≠ (none : Option String) := by
  exact ⟨rfl, by decide⟩

/-- C6 amended: html_to_docx walks the top-level elements in order and
emits blocks per the claimed mapping, except that a top-level li becomes a
bullet list item rather than a plain paragraph: p/div give a paragraph,
h1 to h6 a heading at the matching level, ul/ol one list item per direct li
child with nested lists flattened, br/hr an empty paragraph, and any other
tag a plain paragraph. -/
theorem c6_theorem :
    (∀ blocks : List HNode, (∀ b ∈ blocks, isElemNode b = true) →
      (htmlBlocks blocks).map Para.style = blocks.flatMap specC6Styles) ∧
    (∀ (name : String) (attrs : List (String × String)) (children : List HNode),
      strLower name = "br" ∨ strLower name = "hr" →
      blockParas (.elem name attrs children) = [emptyPara]) := by
  constructor
  · intro blocks h
    induction blocks with
    | nil => rfl
    | cons b bs ih =>
      simp only [htmlBlocks, List.flatMap_cons, List.map_append] at ih ⊢
      rw [blockParas_styles b (h b (List.mem_cons_self b bs)),
        ih fun x hx => h x (List.mem_cons_of_mem b hx)]
  · intro name attrs children h
    rcases h with h | h <;> simp [blockParas, headingLevel, h]

/-- C6 witness: the mapping on a concrete two-element fragment and the
empty paragraph for a concrete br element. -/
theorem c6_witness :
    ((htmlBlocks [liFrag, c5Frag]).map Para.style =
      [liFrag, c5Frag].flatMap specC6Styles) ∧
    blockParas (.elem "br" [] []) = [emptyPara] :=
  ⟨c6_theorem.1 [liFrag, c5Frag] (by decide),
   c6_theorem.2 "br" [] [] (by decide)⟩

/-- A literal matches its own occurrence at the front of the input. -/
lemma matchLit_self : ∀ (p s : List Char), matchLit p (p ++ s) = some s := by
  intro p
  induction p with
  | nil => intro s; rfl
  | cons c cs ih =>
    intro s
    simp only [List.cons_append, matchLit, lowerEq, beq_self_eq_true, if_pos]
    exact ih s

lemma takeDigits_app : ∀ (d : List Char) (x : Char) (r : List Char),
    (∀ c ∈ d, c.isDigit = true) → x.isDigit = false →
    takeDigits (d ++ x :: r) = (d, x :: r) := by
  intro d
  induction d with
  | nil => intro x r _ hx; simp [takeDigits, hx]
  | cons c cs ih =>
    intro x r hd hx
    have hc : c.isDigit = true := hd c (List.mem_cons_self c cs)
    have ih2 := ih x r (fun a ha => hd a (List.mem_cons_of_mem c ha)) hx
    simp only [List.cons_append, takeDigits, hc, if_pos, List.append_eq, ih2]

lemma digitChar_isDigit (d : Nat) (h : d < 10) : (digitChar d).isDigit = true := by
  interval_cases d <;> decide

lemma natDigitsAux_digits : ∀ (fuel n : Nat), n < fuel →
    ∀ c ∈ natDigitsAux fuel n, c.isDigit = true := by
  intro fuel
  induction fuel with
  | zero => intro n h; omega
  | succ f ih =>
    intro n hn c hc
    by_cases h10 : n < 10
    · simp only [natDigitsAux, if_pos h10, List.mem_singleton] at hc
      rw [hc]; exact digitChar_isDigit n h10
    · simp only [natDigitsAux, if_neg h10, List.mem_append, List.mem_singleton] at hc
      rcases hc with hc | hc
      · have hlt : n / 10 < f := by
          have h1 : n / 10 < n := Nat.div_lt_self (by omega) (by omega)
          omega
        exact ih (n / 10) hlt c hc
      · rw [hc]; exact digitChar_isDigit _ (Nat.mod_lt n (by omega))

lemma natDigits_digits (n : Nat) : ∀ c ∈ natDigits n, c.isDigit = true :=
  natDigitsAux_digits (n + 1) n (Nat.lt_succ_self n)

lemma natDigits_ne_nil (n : Nat) : natDigits n ≠ [] := by
  unfold natDigits natDigitsAux
  by_cases h10 : n < 10 <;> simp [h10]

lemma matchDelim_delim (n : Nat) (rest : List Char) :
    matchDelim (delimChars n ++ rest) = some (natDigits n, rest) := by
  have h1 : delimChars n ++ rest =
      delimHead ++ (natDigits n ++ (delimTail ++ rest)) := by
    simp [delimChars, List.append_assoc]
  have htail : delimTail ++ rest = ' ' :: ('-' :: '-' :: '-' :: '\n' :: '\n' :: rest) := rfl
  have h2 : takeDigits (natDigits n ++ (delimTail ++ rest)) =
      (natDigits n, delimTail ++ rest) := by
    rw [htail]
    exact takeDigits_app _ _ _ (natDigits_digits n) (by decide)
  rw [h1]
  simp only [matchDelim, matchLit_self, h2]
  rw [if_neg (by simp [natDigits_ne_nil n])]

lemma charToNat_inj {x y : Char} (h : x.toNat = y.toNat) : x = y := by
  have hv : x.val = y.val := by
    apply UInt32.eq_of_toBitVec_eq
    apply BitVec.eq_of_toNat_eq
    exact h
  exact Char.eq_of_val_eq hv

lemma lowerNat_dash {x : Char} (h : lowerNat x = 45) : x = '-' := by
  unfold lowerNat at h
  split at h
  · omega
  · exact charToNat_inj h

lemma lowerNat_space {x : Char} (h : lowerNat x = 32) : x = ' ' := by
  unfold lowerNat at h
  split at h
  · omega
  · exact charToNat_inj h

lemma lowerEq_dash {x : Char} (h : lowerEq '-' x = true) : x = '-' := by
  have h2 : lowerNat '-' = lowerNat x := Nat.eq_of_beq_eq_true (by simpa [lowerEq] using h)
  exact lowerNat_dash (by rw [← h2]; decide)

lemma lowerEq_space {x : Char} (h : lowerEq ' ' x = true) : x = ' ' := by
  have h2 : lowerNat ' ' = lowerNat x := Nat.eq_of_beq_eq_true (by simpa [lowerEq] using h)
  exact lowerNat_space (by rw [← h2]; decide)

lemma matchLit_cons_some {p x : Char} {ps xs r : List Char}
    (h : matchLit (p :: ps) (x :: xs) = some r) :
    lowerEq p x = true ∧ matchLit ps xs = some r := by
  by_cases hle : lowerEq p x = true
  · exact ⟨hle, by simpa [matchLit, hle] using h⟩
  · rw [matchLit, if_neg hle] at h
    exact absurd h (by simp)

lemma beginsW_self : ∀ (p w : List Char), beginsW p (p ++ w) = true := by
  intro p
  induction p with
  | nil => intro w; rfl
  | cons c cs ih => intro w; simp [beginsW, ih w]

lemma hasSeq_begins : ∀ (pat l : List Char), beginsW pat l = true →
    hasSeq pat l = true := by
  intro pat l h
  cases l with
  | nil => exact h
  | cons x xs => simp [hasSeq, h]

lemma hasSeq_of_eq {pat : List Char} : ∀ (u w l : List Char),
    l = u ++ (pat ++ w) → hasSeq pat l = true := by
  intro u
  induction u with
  | nil =>
    intro w l hl
    subst hl
    exact hasSeq_begins pat _ (beginsW_self pat w)
  | cons c cs ih =>
    intro w l hl
    subst hl
    simp only [List.cons_append, hasSeq, Bool.or_eq_true]
    exact Or.inr (ih w _ rfl)

lemma matchDelim_starts {s : List Char} {r : List Char × List Char}
    (h : matchDelim s = some r) :
    ∃ s4, s = '-' :: '-' :: '-' :: ' ' :: s4 := by
  unfold matchDelim at h
  cases hml : matchLit delimHead s with
  | none => rw [hml] at h; exact absurd h (by simp)
  | some r1 =>
    have hd : delimHead = '-' :: '-' :: '-' :: ' ' :: 'P' :: 'a' :: 'g' :: 'e' :: ' ' :: [] := rfl
    rw [hd] at hml
    match s with
    | [] => exact absurd hml (by simp [matchLit])
    | x1 :: s1 =>
      obtain ⟨he1, hml1⟩ := matchLit_cons_some hml
      match s1 with
      | [] => exact absurd hml1 (by simp [matchLit])
      | x2 :: s2 =>
        obtain ⟨he2, hml2⟩ := matchLit_cons_some hml1
        match s2 with
        | [] => exact absurd hml2 (by simp [matchLit])
        | x3 :: s3 =>
          obtain ⟨he3, hml3⟩ := matchLit_cons_some hml2
          match s3 with
          | [] => exact absurd hml3 (by simp [matchLit])
          | x4 :: s4 =>
            obtain ⟨he4, _⟩ := matchLit_cons_some hml3
            exact ⟨s4, by
              rw [lowerEq_dash he1, lowerEq_dash he2, lowerEq_dash he3,
                lowerEq_space he4]⟩

lemma last_two {l1 l2 : List Char} {a b c d : Char}
    (h : l1 ++ [a, b] = l2 ++ [c, d]) : a = c ∧ b = d := by
  have h2 := (List.append_inj' h rfl).2
  exact ⟨by injection h2 with h3 h4, by
    injection (List.append_inj' h rfl).2 with h3 h4
    injection h4 with h5 _⟩

lemma noMatch_clean (t : String) (v : List Char)
    (h : hasSeq dashMark t.data = false) :
    ∀ u1 u2, t.data ++ ['\n', '\n'] = u1 ++ u2 → u2 ≠ [] →
      matchDelim (u2 ++ v) = none := by
  intro u1 u2 heq hne
  cases hmd : matchDelim (u2 ++ v) with
  | none => rfl
  | some r =>
    exfalso
    obtain ⟨s4, hs4⟩ := matchDelim_starts hmd
    match u2, hne with
    | [x1], _ =>
      have hx1 : x1 = '-' := by
        rw [List.singleton_append] at hs4
        injection hs4
      have heq2 : (t.data ++ ['\n']) ++ ['\n'] = u1 ++ [x1] := by
        rw [List.append_assoc]
        exact heq
      have hlast : ('\n' : Char) = x1 := by
        have h2 := (List.append_inj' heq2 rfl).2
        injection h2
      rw [hx1] at hlast
      exact absurd hlast (by decide)
    | [x1, x2], _ =>
      have hx : x1 = '-' ∧ x2 = '-' := by
        rw [List.cons_append, List.singleton_append] at hs4
        refine ⟨by injection hs4, ?_⟩
        injection hs4 with h1 h2
        injection h2
      obtain ⟨hl1, hl2⟩ := last_two (heq.symm : u1 ++ [x1, x2] = t.data ++ ['\n', '\n'])
      rw [hx.1] at hl1
      exact absurd hl1 (by decide)
    | [x1, x2, x3], _ =>
      have hx2 : x2 = '-' := by
        rw [List.cons_append, List.cons_append, List.singleton_append] at hs4
        injection hs4 with h1 h2
        injection h2
      have heq2 : (u1 ++ [x1]) ++ [x2, x3] = t.data ++ ['\n', '\n'] := by
        simpa [List.append_assoc] using heq.symm
      obtain ⟨hl1, hl2⟩ := last_two heq2
      rw [hx2] at hl1
      exact absurd hl1 (by decide)
    | x1 :: x2 :: x3 :: x4 :: w, _ =>
      have hs4' : x1 :: x2 :: x3 :: x4 :: (w ++ v) =
          '-' :: '-' :: '-' :: ' ' :: s4 := by
        simpa using hs4
      have hx1 : x1 = '-' := by injection hs4'
      have hx2 : x2 = '-' := by
        injection hs4' with h1 h2; injection h2
      have hx3 : x3 = '-' := by
        injection hs4' with h1 h2; injection h2 with h3 h4; injection h4
      have hx4 : x4 = ' ' := by
        injection hs4' with h1 h2; injection h2 with h3 h4
        injection h4 with h5 h6; injection h6
      subst hx1; subst hx2; subst hx3; subst hx4
      match w with
      | [] =>
        have heq2 : (u1 ++ ['-', '-']) ++ ['-', ' '] = t.data ++ ['\n', '\n'] := by
          simpa [List.append_assoc] using heq.symm
        obtain ⟨hl1, _⟩ := last_two heq2
        exact absurd hl1 (by decide)
      | [y] =>
        have heq2 : (u1 ++ ['-', '-', '-']) ++ [' ', y] = t.data ++ ['\n', '\n'] := by
          simpa [List.append_assoc] using heq.symm
        obtain ⟨hl1, _⟩ := last_two heq2
        exact absurd hl1 (by decide)
      | y1 :: y2 :: w2 =>
        have hlen : u1.length + 4 ≤ t.data.length := by
          have hl := congrArg List.length heq
          simp only [List.length_append, List.length_cons, List.length_nil] at hl
          omega
        have htake1 : (u1 ++ '-' :: '-' :: '-' :: ' ' :: y1 :: y2 :: w2).take
            (u1.length + 4) = u1 ++ ['-', '-', '-', ' '] := by
          rw [List.take_append]
          rfl
        have htake2 : (t.data ++ ['\n', '\n']).take (u1.length + 4) =
            t.data.take (u1.length + 4) := List.take_append_of_le_length hlen
        have hpre : t.data.take (u1.length + 4) = u1 ++ ['-', '-', '-', ' '] := by
          rw [← htake2, heq, htake1]
        have hsplit : t.data = u1 ++ (dashMark ++ t.data.drop (u1.length + 4)) := by
          conv_lhs => rw [← List.take_append_drop (u1.length + 4) t.data]
          rw [hpre]
          simp [dashMark, List.append_assoc]
        rw [hasSeq_of_eq u1 _ t.data hsplit] at h
        exact absurd h (by decide)

lemma splitAux_match (f : Nat) (c : Char) (cs num rest : List Char)
    (hm : matchDelim (c :: cs) = some (num, rest)) :
    splitAux (f + 1) (c :: cs) =
      ([], (num, (splitAux f rest).1) :: (splitAux f rest).2) := by
  cases hsp : splitAux f rest with
  | mk pre pairs => simp [splitAux, hm, hsp]

lemma splitAux_nomatch (f : Nat) (c : Char) (cs : List Char)
    (hm : matchDelim (c :: cs) = none) :
    splitAux (f + 1) (c :: cs) = (c :: (splitAux f cs).1, (splitAux f cs).2) := by
  cases hsp : splitAux f cs with
  | mk pre pairs => simp [splitAux, hm, hsp]

lemma splitAux_skip : ∀ (u v : List Char) (fuel : Nat),
    (∀ u1 u2, u = u1 ++ u2 → u2 ≠ [] → matchDelim (u2 ++ v) = none) →
    splitAux (fuel + u.length) (u ++ v) =
      (u ++ (splitAux fuel v).1, (splitAux fuel v).2) := by
  intro u
  induction u with
  | nil => intro v fuel h; simp
  | cons c u2 ih =>
    intro v fuel h
    have hm : matchDelim (c :: (u2 ++ v)) = none := by
      have := h [] (c :: u2) rfl (by simp)
      simpa using this
    have harith : fuel + (c :: u2).length = (fuel + u2.length) + 1 := by
      simp [List.length_cons]
      omega
    rw [List.cons_append, harith, splitAux_nomatch _ _ _ hm,
      ih v fuel fun u1 u2x he hne => h (c :: u1) u2x (by rw [he, List.cons_append]) hne]
    simp

lemma delimChars_len (k : Nat) : 16 ≤ (delimChars k).length := by
  have h1 : 1 ≤ (natDigits k).length :=
    List.length_pos.mpr (natDigits_ne_nil k)
  have h2 : delimHead.length = 9 := rfl
  have h3 : delimTail.length = 6 := rfl
  simp only [delimChars, List.length_append, h2, h3]
  omega

lemma splitAux_emit : ∀ (texts : List String) (k fuel : Nat),
    (emitChars k texts).length + 1 ≤ fuel →
    (∀ t ∈ texts, hasSeq dashMark t.data = false) →
    splitAux fuel (emitChars k texts) =
      ([], (enumFrom k texts).map fun p => (natDigits p.1, p.2.data ++ ['\n', '\n'])) := by
  intro texts
  induction texts with
  | nil =>
    intro k fuel hf _
    cases fuel with
    | zero => omega
    | succ f => rfl
  | cons t ts ih =>
    intro k fuel hf hclean
    have hemit : emitChars k (t :: ts) =
        delimChars k ++ ((t.data ++ ['\n', '\n']) ++ emitChars (k + 1) ts) := by
      simp [emitChars, List.append_assoc]
    have hlen : (emitChars k (t :: ts)).length =
        (delimChars k).length +
          ((t.data ++ ['\n', '\n']).length + (emitChars (k + 1) ts).length) := by
      rw [hemit]; simp [List.length_append]; omega
    have hdlen := delimChars_len k
    cases fuel with
    | zero => omega
    | succ f =>
      have hmd : matchDelim (emitChars k (t :: ts)) =
          some (natDigits k, (t.data ++ ['\n', '\n']) ++ emitChars (k + 1) ts) := by
        rw [hemit]; exact matchDelim_delim k _
      obtain ⟨c, cs, hcc⟩ : ∃ c cs, emitChars k (t :: ts) = c :: cs := by
        rw [hemit]
        exact ⟨'-', _, rfl⟩
      rw [hcc] at hmd ⊢
      rw [splitAux_match f c cs _ _ hmd]
      have hul : (t.data ++ ['\n', '\n']).length ≤ f := by omega
      have hfuel2 : f = (f - (t.data ++ ['\n', '\n']).length) +
          (t.data ++ ['\n', '\n']).length := by omega
      rw [hfuel2, splitAux_skip _ _ _
        (noMatch_clean t _ (hclean t (List.mem_cons_self t ts)))]
      rw [ih (k + 1) (f - (t.data ++ ['\n', '\n']).length) (by omega)
        fun x hx => hclean x (List.mem_cons_of_mem t hx)]
      simp [enumFrom]

lemma trimChars_nn (l : List Char) :
    trimChars (l ++ ['\n', '\n']) = trimChars l := by
  unfold trimChars
  have h : (l ++ ['\n', '\n']).reverse.dropWhile Char.isWhitespace =
      l.reverse.dropWhile Char.isWhitespace := by
    rw [List.reverse_append]
    rfl
  rw [h]

lemma enumFrom_map {α β : Type} (f : α → β) :
    ∀ (l : List α) (k : Nat),
      enumFrom k (l.map f) = (enumFrom k l).map fun p => (p.1, f p.2) := by
  intro l
  induction l with
  | nil => intro k; rfl
  | cons a t ih => intro k; simp [enumFrom, ih (k + 1)]

lemma pageEntries_eq (env : OcrEnv) (pp : Bool) :
    pageEntries env pp =
      (enumFrom 1 (ocrTexts env pp)).map fun p => pageEntry p.1 p.2 := by
  unfold pageEntries ocrTexts
  rw [enumFrom_map, List.map_map]
  rfl

lemma strConcat_entries_data : ∀ (texts : List String) (k : Nat),
    (strConcat ((enumFrom k texts).map fun p => pageEntry p.1 p.2)).data =
      emitChars k texts := by
  intro texts
  induction texts with
  | nil => intro k; rfl
  | cons t ts ih =>
    intro k
    show (pageEntry k t ++ strConcat ((enumFrom (k + 1) ts).map fun p => pageEntry p.1 p.2)).data = _
    rw [String.data_append, ih (k + 1)]
    show ("--- Page " ++ natString k ++ " ---" ++ "\n\n" ++ t ++ "\n\n").data ++ _ = _
    simp only [String.data_append]
    simp [emitChars, delimChars, delimHead, delimTail, natString, List.append_assoc]

lemma extract_data (env : OcrEnv) (pp : Bool) :
    (extract_text_ocr env pp).data = emitChars 1 (ocrTexts env pp) := by
  unfold extract_text_ocr
  rw [pageEntries_eq, strConcat_entries_data]

lemma flatMap_map_congr {α β γ : Type} (g : α → β) (f : β → List γ) (f2 : α → List γ)
    (l : List α) (h : ∀ a ∈ l, f (g a) = f2 a) :
    (l.map g).flatMap f = l.flatMap f2 := by
  induction l with
  | nil => rfl
  | cons a t ih =>
    simp only [List.map_cons, List.flatMap_cons,
      h a (List.mem_cons_self a t), ih fun x hx => h x (List.mem_cons_of_mem a hx)]

/-- C7: the text-mode extraction prefixes every page's text with the
literal page-delimiter line followed by a blank line, in page order, and
the DOCX emitter splits on exactly that pattern, recovering the page
number and content pairs and emitting the title block, then per page the
bold 12pt dark-blue Page N heading, the body paragraph with that page's
content, and a blank spacer paragraph, provided no page's text itself
contains the dash-space delimiter opening. -/
theorem c7_theorem (env : OcrEnv) (pp : Bool)
    (h : ∀ t ∈ ocrTexts env pp, hasSeq dashMark t.data = false) :
    save_as_docx env.srcName (extract_text_ocr env pp) =
      specDocxLayout env.srcName (ocrTexts env pp) := by
  have hsplit : splitPages (extract_text_ocr env pp) =
      (enumFrom 1 (ocrTexts env pp)).map fun p =>
        (natString p.1, String.mk (p.2.data ++ ['\n', '\n'])) := by
    unfold splitPages
    rw [extract_data]
    rw [splitAux_emit (ocrTexts env pp) 1 _ (by omega) h]
    simp [List.map_map, natString]
  unfold save_as_docx specDocxLayout
  rw [hsplit]
  dsimp only [specTitlePara, specHeadingPara, specBodyPara, mkRun, natString]
  congr 2
  apply flatMap_map_congr
  intro p hp
  dsimp only
  rw [show trimChars ((String.mk (p.2.data ++ ['\n', '\n'])).data) =
    trimChars p.2.data from trimChars_nn p.2.data]

/-- C7 witness: the documented layout on a concrete two-page document. -/
theorem c7_witness :
    save_as_docx "scan.pdf" (extract_text_ocr envTwoPages true) =
      specDocxLayout "scan.pdf" ["hello", "world "] :=
  c7_theorem envTwoPages true (by decide)
